import Mathlib

/-!
Shallow embedding of the KMA workshop planner core (`utils.py`, consumed by `app.py`).

The embedding keeps the source structure: `haversine_km` is the great-circle
distance, `greedy_spatial_clustering` is the greedy capacity-bounded clustering
engine, `find_centroid_pincode` maps a centroid back to the nearest member row,
and `nearest_distance_to_workshops` is the siting filter's distance query.
Numeric columns are modelled by `ℚ` (the raw `projected_ro` column by
`Option ℚ`, `none` standing for a missing or non-numeric entry), and the
real-valued trigonometry of the distance function by `ℝ`.  The clustering
recursion is phrased generically over the ordered type of distance values so
that the loop structure itself stays computable; the source behaviour is the
instantiation at `havDist`.
-/

open List

/-- A row of the demand table as it reaches `greedy_spatial_clustering`:
identifier, coordinates in degrees, and the raw `projected_ro` column
(`none` models a missing / non-numeric entry). -/
structure RawPoint where
  pincode : ℕ
  lat : ℚ
  lon : ℚ
  projected_ro : Option ℚ
deriving DecidableEq

instance : Inhabited RawPoint := ⟨⟨0, 0, 0, none⟩⟩

/-- One cluster as returned by `greedy_spatial_clustering`: member row indices
in insertion order, the running total of `projected_ro`, and the final
weight-weighted centroid. -/
structure Cluster where
  members : List ℕ
  total_ro : ℚ
  centroid : ℚ × ℚ
deriving DecidableEq

/-- `pd.to_numeric(x, errors="coerce").fillna(0)` applied to one raw entry
(line 27 of `utils.py`): a missing or non-numeric value becomes `0`, a numeric
value passes through unchanged. -/
def coerce_ro (o : Option ℚ) : ℚ := o.getD 0

/-- `working.at[idx, "lat"]`. -/
def latOf (pts : List RawPoint) (i : ℕ) : ℚ := (pts.getD i default).lat

/-- `working.at[idx, "lon"]`. -/
def lonOf (pts : List RawPoint) (i : ℕ) : ℚ := (pts.getD i default).lon

/-- `working.at[idx, "projected_ro"]` after the numeric coercion. -/
def usedRo (pts : List RawPoint) (i : ℕ) : ℚ := coerce_ro (pts.getD i default).projected_ro

/-- Python `min(l, key=key)`: the first element of `l` attaining the minimal
key (a later element replaces the current best only on a strictly smaller
key). -/
def argminKey {K : Type*} [LinearOrder K] (key : ℕ → K) : List ℕ → ℕ
  | [] => 0
  | x :: xs => xs.foldl (fun best i => if key i < key best then i else best) x

/-- Python `max(l, key=key)`: the first element of `l` attaining the maximal
key. -/
def argmaxKey (key : ℕ → ℚ) : List ℕ → ℕ
  | [] => 0
  | x :: xs => xs.foldl (fun best i => if key best < key i then i else best) x

/-- Centroid recomputation (lines 50-59 of `utils.py`): the `projected_ro`
weighted mean of the member coordinates, falling back to the arithmetic mean
when the weights sum to `0` or below. -/
def centroidOf (pts : List RawPoint) (members : List ℕ) : ℚ × ℚ :=
  let ws := members.map (usedRo pts)
  let lats := members.map (latOf pts)
  let lons := members.map (lonOf pts)
  if 0 < ws.sum then
    ((List.zipWith (· * ·) lats ws).sum / ws.sum,
      (List.zipWith (· * ·) lons ws).sum / ws.sum)
  else
    (lats.sum / (members.length : ℚ), lons.sum / (members.length : ℚ))

/-- State of the inner accretion loop when it exits. -/
structure GrowResult where
  members : List ℕ
  total : ℚ
  centroid : ℚ × ℚ
  unassigned : List ℕ
deriving DecidableEq

/-- The inner accretion loop of `greedy_spatial_clustering` (lines 43-59):
while the running total is below `max_ro` and unassigned points remain, the
unassigned point nearest to the current centroid is appended (with no check
that it fits), its weight added, and the centroid recomputed.  The fuel
argument only bounds the recursion; any fuel `≥ unassigned.length` yields the
exact loop behaviour because every iteration consumes one unassigned point. -/
def growAux {K : Type*} [LinearOrder K] (dist : ℚ × ℚ → ℚ × ℚ → K) (pts : List RawPoint)
    (max_ro : ℚ) : ℕ → List ℕ → List ℕ → ℚ → ℚ × ℚ → GrowResult
  | 0, unassigned, members, total, centroid => ⟨members, total, centroid, unassigned⟩
  | fuel + 1, unassigned, members, total, centroid =>
    if total < max_ro then
      match unassigned with
      | [] => ⟨members, total, centroid, []⟩
      | u :: us =>
        let nearest := argminKey (fun i => dist centroid (latOf pts i, lonOf pts i)) (u :: us)
        let members' := members ++ [nearest]
        growAux dist pts max_ro fuel ((u :: us).erase nearest) members'
          (total + usedRo pts nearest) (centroidOf pts members')
    else ⟨members, total, centroid, unassigned⟩

/-- The outer loop of `greedy_spatial_clustering` (lines 34-65): while
unassigned points remain, seed a new cluster at the unassigned point of
maximal weight, run the accretion loop, and emit the finished cluster.  Fuel
`≥ unassigned.length` yields the exact loop behaviour because every iteration
consumes at least the seed.  The unassigned collection is kept as an
ascending list of row indices, matching iteration order of the CPython set of
small ints; the claims proved below do not depend on that order. -/
def buildClusters {K : Type*} [LinearOrder K] (dist : ℚ × ℚ → ℚ × ℚ → K) (pts : List RawPoint)
    (max_ro : ℚ) : ℕ → List ℕ → List Cluster
  | 0, _ => []
  | fuel + 1, unassigned =>
    match unassigned with
    | [] => []
    | u :: us =>
      let seed := argmaxKey (usedRo pts) (u :: us)
      let rest := (u :: us).erase seed
      let r := growAux dist pts max_ro rest.length rest [seed] (usedRo pts seed)
        (latOf pts seed, lonOf pts seed)
      ⟨r.members, r.total, r.centroid⟩ :: buildClusters dist pts max_ro fuel r.unassigned

/-- `greedy_spatial_clustering`, generic in the distance function. -/
def greedyClustering {K : Type*} [LinearOrder K] (dist : ℚ × ℚ → ℚ × ℚ → K)
    (pts : List RawPoint) (max_ro : ℚ) : List Cluster :=
  buildClusters dist pts max_ro pts.length (List.range pts.length)

/-- `math.atan2 y x`. -/
noncomputable def atan2 (y x : ℝ) : ℝ :=
  if 0 < x then Real.arctan (y / x)
  else if x < 0 then
    if 0 ≤ y then Real.arctan (y / x) + Real.pi else Real.arctan (y / x) - Real.pi
  else if 0 < y then Real.pi / 2
  else if y < 0 then -(Real.pi / 2)
  else 0

/-- `math.radians`. -/
noncomputable def toRadians (x : ℝ) : ℝ := x * Real.pi / 180

/-- `haversine_km` from `utils.py` (lines 5-14): haversine great-circle
distance in kilometres on a sphere of radius 6371 km, inputs in degrees. -/
noncomputable def haversine_km (lat1 lon1 lat2 lon2 : ℝ) : ℝ :=
  let R : ℝ := 6371.0
  let phi1 := toRadians lat1
  let phi2 := toRadians lat2
  let dphi := toRadians (lat2 - lat1)
  let dlambda := toRadians (lon2 - lon1)
  let a := Real.sin (dphi / 2) ^ 2 +
    Real.cos phi1 * Real.cos phi2 * Real.sin (dlambda / 2) ^ 2
  let c := 2 * atan2 (Real.sqrt a) (Real.sqrt (1 - a))
  R * c

/-- The distance key used inside the clustering engine: `haversine_km` between
the current centroid and a point's coordinates. -/
noncomputable def havDist (c p : ℚ × ℚ) : ℝ :=
  haversine_km (c.1 : ℝ) (c.2 : ℝ) (p.1 : ℝ) (p.2 : ℝ)

/-- `greedy_spatial_clustering` from `utils.py` (lines 16-66). -/
noncomputable def greedy_spatial_clustering (pts : List RawPoint) (max_ro : ℚ) : List Cluster :=
  greedyClustering havDist pts max_ro

/-- `find_centroid_pincode` from `utils.py` (lines 68-78): `none` for an empty
member table, otherwise the pincode and coordinates of the member row whose
distance to the centroid is minimal (`idxmin` keeps the first minimiser). -/
noncomputable def find_centroid_pincode (members : List RawPoint) (centroid : ℚ × ℚ) :
    Option (ℕ × ℚ × ℚ) :=
  match members with
  | [] => none
  | m :: ms =>
    let l := m :: ms
    let idx := argminKey (fun i => havDist centroid (latOf l i, lonOf l i)) (List.range l.length)
    let row := l.getD idx default
    some (row.pincode, row.lat, row.lon)

/-- `nearest_distance_to_workshops` from `utils.py` (lines 80-88): `float("inf")`
(modelled by `⊤` in `WithTop ℝ`) for an empty workshop table, otherwise the
minimum haversine distance to a workshop. -/
noncomputable def nearest_distance_to_workshops (lat lon : ℝ) (workshops : List (ℝ × ℝ)) :
    WithTop ℝ :=
  match workshops with
  | [] => ⊤
  | w :: ws => ((w :: ws).map fun r => haversine_km lat lon r.1 r.2).minimum

/-- `is_far = dist_to_nearest >= min_dist_km` from `app.py` (line 139). -/
def suggested (d : WithTop ℝ) (min_dist_km : ℝ) : Prop := (min_dist_km : WithTop ℝ) ≤ d

def pts1W : List RawPoint := [⟨7, 1, 2, some 10⟩]

def pts2W : List RawPoint := [⟨100, 0, 0, some 3⟩, ⟨200, 0, 0, some 4⟩]

def ptsNeg : List RawPoint := [⟨1, 0, 0, some (-1)⟩]

def ptsPos : List RawPoint := [⟨1, 0, 0, some 5⟩]

/-- The three demand points of the spec's clustering scenario: P1, P2, P3 in
input order (row indices 0, 1, 2). -/
def pts3 : List RawPoint :=
  [⟨560001, 12.90, 77.60, some 4000⟩, ⟨560002, 12.91, 77.61, some 3000⟩,
    ⟨560003, 20, 80, some 5000⟩]

def mem1W : List RawPoint := [⟨42, 3, 4, some 1⟩]

theorem atan2_step_lt {x y : ℝ} (hx : 0 ≤ x) (hxy : x < y) (hy : y < 1) :
    (6371.0 : ℝ) * (2 * atan2 (Real.sqrt x) (Real.sqrt (1 - x))) <
      6371.0 * (2 * atan2 (Real.sqrt y) (Real.sqrt (1 - y))) := by
  have h1x : (0 : ℝ) < 1 - x := by linarith
  have h1y : (0 : ℝ) < 1 - y := by linarith
  have hsx : (0 : ℝ) < Real.sqrt (1 - x) := Real.sqrt_pos.mpr h1x
  have hsy : (0 : ℝ) < Real.sqrt (1 - y) := Real.sqrt_pos.mpr h1y
  rw [atan2, atan2, if_pos hsx, if_pos hsy]
  have hnum : Real.sqrt x < Real.sqrt y := Real.sqrt_lt_sqrt hx hxy
  have hden : Real.sqrt (1 - y) ≤ Real.sqrt (1 - x) := Real.sqrt_le_sqrt (by linarith)
  have hdiv : Real.sqrt x / Real.sqrt (1 - x) < Real.sqrt y / Real.sqrt (1 - y) := by
    rw [div_lt_div_iff₀ hsx hsy]
    calc Real.sqrt x * Real.sqrt (1 - y)
        < Real.sqrt y * Real.sqrt (1 - y) := mul_lt_mul_of_pos_right hnum hsy
      _ ≤ Real.sqrt y * Real.sqrt (1 - x) :=
          mul_le_mul_of_nonneg_left hden (Real.sqrt_nonneg y)
  have := Real.arctan_strictMono hdiv
  linarith

theorem hav_concrete_lt :
    havDist ((20 : ℚ), (80 : ℚ)) ((1291 / 100 : ℚ), (7761 / 100 : ℚ)) <
      havDist ((20 : ℚ), (80 : ℚ)) ((129 / 10 : ℚ), (388 / 5 : ℚ)) := by
  have hpi : (0 : ℝ) < Real.pi := Real.pi_pos
  have hpi315 : Real.pi < 3.15 := Real.pi_lt_d2
  simp only [havDist, haversine_km, toRadians]
  push_cast
  rw [show ((1291 : ℝ) / 100 - 20) * Real.pi / 180 / 2 = -(709 * (Real.pi / 36000)) by ring]
  rw [show ((7761 : ℝ) / 100 - 80) * Real.pi / 180 / 2 = -(239 * (Real.pi / 36000)) by ring]
  rw [show ((129 : ℝ) / 10 - 20) * Real.pi / 180 / 2 = -(710 * (Real.pi / 36000)) by ring]
  rw [show ((388 : ℝ) / 5 - 80) * Real.pi / 180 / 2 = -(240 * (Real.pi / 36000)) by ring]
  rw [show (20 : ℝ) * Real.pi / 180 = 4000 * (Real.pi / 36000) by ring]
  rw [show (1291 : ℝ) / 100 * Real.pi / 180 = 2582 * (Real.pi / 36000) by ring]
  rw [show (129 : ℝ) / 10 * Real.pi / 180 = 2580 * (Real.pi / 36000) by ring]
  simp only [Real.sin_neg, neg_sq]
  set th : ℝ := Real.pi / 36000 with hth_def
  have hth : (0 : ℝ) < th := by positivity
  have hpi_eq : Real.pi = 36000 * th := by rw [hth_def]; ring
  have hsinlt : ∀ j k : ℝ, 0 ≤ j → j < k → k ≤ 800 → Real.sin (j * th) < Real.sin (k * th) := by
    intro j k hj hjk hk
    apply Real.strictMonoOn_sin
    · constructor <;> [linarith [mul_nonneg hj hth.le]; nlinarith]
    · constructor <;> nlinarith
    · nlinarith
  have hsinpos : ∀ k : ℝ, 0 < k → k ≤ 800 → 0 < Real.sin (k * th) := by
    intro k hk hk8
    exact Real.sin_pos_of_pos_of_lt_pi (by nlinarith) (by nlinarith)
  have hcospos : ∀ k : ℝ, 0 ≤ k → k ≤ 4100 → 0 < Real.cos (k * th) := by
    intro k hk hk4
    exact Real.cos_pos_of_mem_Ioo ⟨by nlinarith, by nlinarith⟩
  have hs709 := hsinlt 709 710 (by norm_num) (by norm_num) (by norm_num)
  have hs709pos := hsinpos 709 (by norm_num) (by norm_num)
  have hs710pos := hsinpos 710 (by norm_num) (by norm_num)
  have hs239 := hsinlt 239 240 (by norm_num) (by norm_num) (by norm_num)
  have hs239pos := hsinpos 239 (by norm_num) (by norm_num)
  have hs240pos := hsinpos 240 (by norm_num) (by norm_num)
  have hc4000 := hcospos 4000 (by norm_num) (by norm_num)
  have hc2582pos := hcospos 2582 (by norm_num) (by norm_num)
  have hc2580pos := hcospos 2580 (by norm_num) (by norm_num)
  have hcanti : Real.cos (2582 * th) < Real.cos (2580 * th) :=
    Real.strictAntiOn_cos ⟨by nlinarith, by nlinarith⟩ ⟨by nlinarith, by nlinarith⟩
      (by nlinarith)
  have hs710lt : Real.sin (710 * th) < 710 * th := Real.sin_lt (by nlinarith)
  have hs240lt : Real.sin (240 * th) < 240 * th := Real.sin_lt (by nlinarith)
  have h710small : 710 * th < 7 / 100 := by
    rw [hth_def]; nlinarith
  have h240small : 240 * th < 3 / 100 := by
    rw [hth_def]; nlinarith
  apply atan2_step_lt
  · exact add_nonneg (sq_nonneg _)
      (mul_nonneg (mul_nonneg hc4000.le hc2582pos.le) (sq_nonneg _))
  · have hsq1 : Real.sin (709 * th) ^ 2 < Real.sin (710 * th) ^ 2 :=
      pow_lt_pow_left₀ hs709 hs709pos.le two_ne_zero
    have hsq2 : Real.sin (239 * th) ^ 2 < Real.sin (240 * th) ^ 2 :=
      pow_lt_pow_left₀ hs239 hs239pos.le two_ne_zero
    have t1 : Real.cos (2582 * th) * Real.sin (239 * th) ^ 2 <
        Real.cos (2580 * th) * Real.sin (240 * th) ^ 2 :=
      calc Real.cos (2582 * th) * Real.sin (239 * th) ^ 2
          < Real.cos (2582 * th) * Real.sin (240 * th) ^ 2 :=
            mul_lt_mul_of_pos_left hsq2 hc2582pos
        _ < Real.cos (2580 * th) * Real.sin (240 * th) ^ 2 :=
            mul_lt_mul_of_pos_right hcanti (pow_pos hs240pos 2)
    have hterm : Real.cos (4000 * th) * Real.cos (2582 * th) * Real.sin (239 * th) ^ 2 <
        Real.cos (4000 * th) * Real.cos (2580 * th) * Real.sin (240 * th) ^ 2 :=
      calc Real.cos (4000 * th) * Real.cos (2582 * th) * Real.sin (239 * th) ^ 2
          = Real.cos (4000 * th) * (Real.cos (2582 * th) * Real.sin (239 * th) ^ 2) := by ring
        _ < Real.cos (4000 * th) * (Real.cos (2580 * th) * Real.sin (240 * th) ^ 2) :=
            mul_lt_mul_of_pos_left t1 hc4000
        _ = Real.cos (4000 * th) * Real.cos (2580 * th) * Real.sin (240 * th) ^ 2 := by ring
    linarith
  · have h1 : Real.sin (710 * th) ^ 2 < 49 / 10000 := by
      have hs7 : Real.sin (710 * th) < 7 / 100 := hs710lt.trans h710small
      have hp := pow_lt_pow_left₀ hs7 hs710pos.le two_ne_zero
      have he : ((7 : ℝ) / 100) ^ 2 = 49 / 10000 := by norm_num
      linarith
    have h2 : Real.sin (240 * th) ^ 2 < 9 / 10000 := by
      have hs2 : Real.sin (240 * th) < 3 / 100 := hs240lt.trans h240small
      have hp := pow_lt_pow_left₀ hs2 hs240pos.le two_ne_zero
      have he : ((3 : ℝ) / 100) ^ 2 = 9 / 10000 := by norm_num
      linarith
    have hccle : Real.cos (4000 * th) * Real.cos (2580 * th) ≤ 1 :=
      mul_le_one₀ (Real.cos_le_one _) hc2580pos.le (Real.cos_le_one _)
    have h3 : Real.cos (4000 * th) * Real.cos (2580 * th) * Real.sin (240 * th) ^ 2 ≤
        Real.sin (240 * th) ^ 2 := by
      calc Real.cos (4000 * th) * Real.cos (2580 * th) * Real.sin (240 * th) ^ 2
          ≤ 1 * Real.sin (240 * th) ^ 2 :=
            mul_le_mul_of_nonneg_right hccle (sq_nonneg _)
        _ = Real.sin (240 * th) ^ 2 := one_mul _
    linarith

theorem foldl_min_mem {K : Type*} [LinearOrder K] (key : ℕ → K) :
    ∀ (xs : List ℕ) (b : ℕ),
      xs.foldl (fun best i => if key i < key best then i else best) b ∈ b :: xs := by
  intro xs
  induction xs with
  | nil => intro b; simp
  | cons a as ih =>
    intro b
    rw [List.foldl_cons]
    have h := ih (if key a < key b then a else b)
    rw [List.mem_cons] at h
    rcases h with h | h
    · rw [h]
      by_cases hc : key a < key b
      · simp [hc]
      · simp [hc]
    · exact List.mem_cons_of_mem _ (List.mem_cons_of_mem _ h)

theorem foldl_min_le {K : Type*} [LinearOrder K] (key : ℕ → K) :
    ∀ (xs : List ℕ) (b j : ℕ), j ∈ b :: xs →
      key (xs.foldl (fun best i => if key i < key best then i else best) b) ≤ key j := by
  intro xs
  induction xs with
  | nil =>
    intro b j hj
    rw [List.mem_singleton] at hj
    subst hj
    simp
  | cons a as ih =>
    intro b j hj
    rw [List.foldl_cons]
    have hb : key (if key a < key b then a else b) ≤ key b := by
      by_cases hc : key a < key b
      · rw [if_pos hc]; exact hc.le
      · rw [if_neg hc]
    have ha : key (if key a < key b then a else b) ≤ key a := by
      by_cases hc : key a < key b
      · rw [if_pos hc]
      · rw [if_neg hc]; exact not_lt.mp hc
    rcases List.mem_cons.mp hj with rfl | hj'
    · exact le_trans (ih _ _ (List.mem_cons_self _ _)) hb
    · rcases List.mem_cons.mp hj' with rfl | hj''
      · exact le_trans (ih _ _ (List.mem_cons_self _ _)) ha
      · exact ih _ _ (List.mem_cons_of_mem _ hj'')

theorem argminKey_mem {K : Type*} [LinearOrder K] (key : ℕ → K) (x : ℕ) (xs : List ℕ) :
    argminKey key (x :: xs) ∈ x :: xs := by
  rw [argminKey]
  exact foldl_min_mem key xs x

theorem argminKey_le {K : Type*} [LinearOrder K] (key : ℕ → K) (x : ℕ) (xs : List ℕ)
    (j : ℕ) (hj : j ∈ x :: xs) : key (argminKey key (x :: xs)) ≤ key j := by
  rw [argminKey]
  exact foldl_min_le key xs x j hj

theorem foldl_max_mem (key : ℕ → ℚ) :
    ∀ (xs : List ℕ) (b : ℕ),
      xs.foldl (fun best i => if key best < key i then i else best) b ∈ b :: xs := by
  intro xs
  induction xs with
  | nil => intro b; simp
  | cons a as ih =>
    intro b
    rw [List.foldl_cons]
    have h := ih (if key b < key a then a else b)
    rw [List.mem_cons] at h
    rcases h with h | h
    · rw [h]
      by_cases hc : key b < key a
      · simp [hc]
      · simp [hc]
    · exact List.mem_cons_of_mem _ (List.mem_cons_of_mem _ h)

theorem foldl_max_ge (key : ℕ → ℚ) :
    ∀ (xs : List ℕ) (b j : ℕ), j ∈ b :: xs →
      key j ≤ key (xs.foldl (fun best i => if key best < key i then i else best) b) := by
  intro xs
  induction xs with
  | nil =>
    intro b j hj
    rw [List.mem_singleton] at hj
    subst hj
    simp
  | cons a as ih =>
    intro b j hj
    rw [List.foldl_cons]
    have hb : key b ≤ key (if key b < key a then a else b) := by
      by_cases hc : key b < key a
      · rw [if_pos hc]; exact hc.le
      · rw [if_neg hc]
    have ha : key a ≤ key (if key b < key a then a else b) := by
      by_cases hc : key b < key a
      · rw [if_pos hc]
      · rw [if_neg hc]; exact not_lt.mp hc
    rcases List.mem_cons.mp hj with rfl | hj'
    · exact le_trans hb (ih _ _ (List.mem_cons_self _ _))
    · rcases List.mem_cons.mp hj' with rfl | hj''
      · exact le_trans ha (ih _ _ (List.mem_cons_self _ _))
      · exact ih _ _ (List.mem_cons_of_mem _ hj'')

theorem argmaxKey_mem (key : ℕ → ℚ) (x : ℕ) (xs : List ℕ) :
    argmaxKey key (x :: xs) ∈ x :: xs := by
  rw [argmaxKey]
  exact foldl_max_mem key xs x

theorem argmaxKey_ge (key : ℕ → ℚ) (x : ℕ) (xs : List ℕ)
    (j : ℕ) (hj : j ∈ x :: xs) : key j ≤ key (argmaxKey key (x :: xs)) := by
  rw [argmaxKey]
  exact foldl_max_ge key xs x j hj

theorem growAux_of_not_lt {K : Type*} [LinearOrder K] (dist : ℚ × ℚ → ℚ × ℚ → K)
    (pts : List RawPoint) (max_ro : ℚ) (fuel : ℕ) (unassigned members : List ℕ)
    (total : ℚ) (centroid : ℚ × ℚ) (h : ¬ total < max_ro) :
    growAux dist pts max_ro fuel unassigned members total centroid =
      ⟨members, total, centroid, unassigned⟩ := by
  cases fuel with
  | zero => rfl
  | succ n => simp only [growAux]; rw [if_neg h]

theorem growAux_perm {K : Type*} [LinearOrder K] (dist : ℚ × ℚ → ℚ × ℚ → K)
    (pts : List RawPoint) (max_ro : ℚ) :
    ∀ (fuel : ℕ) (unassigned members : List ℕ) (total : ℚ) (centroid : ℚ × ℚ),
      (growAux dist pts max_ro fuel unassigned members total centroid).members ++
          (growAux dist pts max_ro fuel unassigned members total centroid).unassigned ~
        members ++ unassigned := by
  intro fuel
  induction fuel with
  | zero => intro unassigned members total centroid; exact Perm.refl _
  | succ n ih =>
    intro unassigned members total centroid
    by_cases hlt : total < max_ro
    · simp only [growAux]
      rw [if_pos hlt]
      cases unassigned with
      | nil => exact Perm.refl _
      | cons u us =>
        simp only
        refine (ih _ _ _ _).trans ?_
        have hmem := argminKey_mem (fun i => dist centroid (latOf pts i, lonOf pts i)) u us
        calc (members ++ [argminKey (fun i => dist centroid (latOf pts i, lonOf pts i)) (u :: us)]) ++
              (u :: us).erase (argminKey (fun i => dist centroid (latOf pts i, lonOf pts i)) (u :: us))
            = members ++ (argminKey (fun i => dist centroid (latOf pts i, lonOf pts i)) (u :: us) ::
              (u :: us).erase (argminKey (fun i => dist centroid (latOf pts i, lonOf pts i)) (u :: us))) := by
              simp [List.append_assoc]
          _ ~ members ++ (u :: us) :=
              Perm.append_left members (List.perm_cons_erase hmem).symm
    · rw [growAux_of_not_lt _ _ _ _ _ _ _ _ hlt]

theorem growAux_total {K : Type*} [LinearOrder K] (dist : ℚ × ℚ → ℚ × ℚ → K)
    (pts : List RawPoint) (max_ro : ℚ) :
    ∀ (fuel : ℕ) (unassigned members : List ℕ) (total : ℚ) (centroid : ℚ × ℚ),
      total = (members.map (usedRo pts)).sum →
      (growAux dist pts max_ro fuel unassigned members total centroid).total =
        ((growAux dist pts max_ro fuel unassigned members total centroid).members.map
          (usedRo pts)).sum := by
  intro fuel
  induction fuel with
  | zero => intro unassigned members total centroid h; exact h
  | succ n ih =>
    intro unassigned members total centroid h
    by_cases hlt : total < max_ro
    · simp only [growAux]
      rw [if_pos hlt]
      cases unassigned with
      | nil => exact h
      | cons u us =>
        simp only
        apply ih
        simp [h, List.map_append, List.sum_append]
    · rw [growAux_of_not_lt _ _ _ _ _ _ _ _ hlt]
      exact h

theorem growAux_unassigned_length {K : Type*} [LinearOrder K] (dist : ℚ × ℚ → ℚ × ℚ → K)
    (pts : List RawPoint) (max_ro : ℚ) :
    ∀ (fuel : ℕ) (unassigned members : List ℕ) (total : ℚ) (centroid : ℚ × ℚ),
      (growAux dist pts max_ro fuel unassigned members total centroid).unassigned.length ≤
        unassigned.length := by
  intro fuel
  induction fuel with
  | zero => intro unassigned members total centroid; exact le_refl _
  | succ n ih =>
    intro unassigned members total centroid
    by_cases hlt : total < max_ro
    · simp only [growAux]
      rw [if_pos hlt]
      cases unassigned with
      | nil => exact Nat.zero_le _
      | cons u us =>
        simp only
        refine le_trans (ih _ _ _ _) ?_
        exact le_trans (List.length_erase_le _ _) (le_refl _)
    · rw [growAux_of_not_lt _ _ _ _ _ _ _ _ hlt]

theorem growAux_soft_cap {K : Type*} [LinearOrder K] (dist : ℚ × ℚ → ℚ × ℚ → K)
    (pts : List RawPoint) (max_ro : ℚ) :
    ∀ (fuel : ℕ) (unassigned members : List ℕ) (total : ℚ) (centroid : ℚ × ℚ),
      (∀ l, members.getLast? = some l → 2 ≤ members.length →
        total - usedRo pts l < max_ro) →
      ∀ l, (growAux dist pts max_ro fuel unassigned members total centroid).members.getLast? =
          some l →
        2 ≤ (growAux dist pts max_ro fuel unassigned members total centroid).members.length →
        (growAux dist pts max_ro fuel unassigned members total centroid).total -
          usedRo pts l < max_ro := by
  intro fuel
  induction fuel with
  | zero => intro unassigned members total centroid hP; exact hP
  | succ n ih =>
    intro unassigned members total centroid hP
    by_cases hlt : total < max_ro
    · simp only [growAux]
      rw [if_pos hlt]
      cases unassigned with
      | nil => exact hP
      | cons u us =>
        simp only
        apply ih
        intro l hl _
        rw [List.getLast?_concat] at hl
        have : argminKey (fun i => dist centroid (latOf pts i, lonOf pts i)) (u :: us) = l :=
          Option.some.inj hl
        rw [← this]
        simpa using hlt
    · rw [growAux_of_not_lt _ _ _ _ _ _ _ _ hlt]
      exact hP

theorem buildClusters_join_perm {K : Type*} [LinearOrder K] (dist : ℚ × ℚ → ℚ × ℚ → K)
    (pts : List RawPoint) (max_ro : ℚ) :
    ∀ (fuel : ℕ) (unassigned : List ℕ), unassigned.length ≤ fuel →
      ((buildClusters dist pts max_ro fuel unassigned).map Cluster.members).flatten ~
        unassigned := by
  intro fuel
  induction fuel with
  | zero =>
    intro unassigned h
    rw [Nat.le_zero] at h
    rw [List.eq_nil_of_length_eq_zero h]
    simp [buildClusters]
  | succ n ih =>
    intro unassigned h
    cases unassigned with
    | nil => simp [buildClusters]
    | cons u us =>
      simp only [buildClusters, List.map_cons, List.flatten_cons]
      have hseed := argmaxKey_mem (usedRo pts) u us
      have hrest : ((u :: us).erase (argmaxKey (usedRo pts) (u :: us))).length = us.length := by
        rw [List.length_erase_of_mem hseed]
        simp
      have hlen : (growAux dist pts max_ro ((u :: us).erase (argmaxKey (usedRo pts) (u :: us))).length
          ((u :: us).erase (argmaxKey (usedRo pts) (u :: us)))
          [argmaxKey (usedRo pts) (u :: us)]
          (usedRo pts (argmaxKey (usedRo pts) (u :: us)))
          (latOf pts (argmaxKey (usedRo pts) (u :: us)),
            lonOf pts (argmaxKey (usedRo pts) (u :: us)))).unassigned.length ≤ n := by
        refine le_trans (growAux_unassigned_length _ _ _ _ _ _ _ _) ?_
        rw [hrest]
        exact Nat.le_of_succ_le_succ (by simpa using h)
      refine Perm.trans (Perm.append_left _ (ih _ hlen)) ?_
      refine Perm.trans (growAux_perm dist pts max_ro _ _ _ _ _) ?_
      exact Perm.trans (Perm.refl _) (List.perm_cons_erase hseed).symm

theorem buildClusters_total_eq {K : Type*} [LinearOrder K] (dist : ℚ × ℚ → ℚ × ℚ → K)
    (pts : List RawPoint) (max_ro : ℚ) :
    ∀ (fuel : ℕ) (unassigned : List ℕ) (c : Cluster),
      c ∈ buildClusters dist pts max_ro fuel unassigned →
      c.total_ro = (c.members.map (usedRo pts)).sum := by
  intro fuel
  induction fuel with
  | zero => intro unassigned c hc; simp [buildClusters] at hc
  | succ n ih =>
    intro unassigned c hc
    cases unassigned with
    | nil => simp [buildClusters] at hc
    | cons u us =>
      simp only [buildClusters] at hc
      rcases List.mem_cons.mp hc with rfl | hc'
      · exact growAux_total dist pts max_ro _ _ _ _ _ (by simp)
      · exact ih _ _ hc'

theorem buildClusters_length_le {K : Type*} [LinearOrder K] (dist : ℚ × ℚ → ℚ × ℚ → K)
    (pts : List RawPoint) (max_ro : ℚ) :
    ∀ (fuel : ℕ) (unassigned : List ℕ),
      (buildClusters dist pts max_ro fuel unassigned).length ≤ unassigned.length := by
  intro fuel
  induction fuel with
  | zero => intro unassigned; simp [buildClusters]
  | succ n ih =>
    intro unassigned
    cases unassigned with
    | nil => simp [buildClusters]
    | cons u us =>
      simp only [buildClusters, List.length_cons]
      have hseed := argmaxKey_mem (usedRo pts) u us
      have h1 : (growAux dist pts max_ro ((u :: us).erase (argmaxKey (usedRo pts) (u :: us))).length
          ((u :: us).erase (argmaxKey (usedRo pts) (u :: us)))
          [argmaxKey (usedRo pts) (u :: us)]
          (usedRo pts (argmaxKey (usedRo pts) (u :: us)))
          (latOf pts (argmaxKey (usedRo pts) (u :: us)),
            lonOf pts (argmaxKey (usedRo pts) (u :: us)))).unassigned.length ≤ us.length := by
        refine le_trans (growAux_unassigned_length _ _ _ _ _ _ _ _) ?_
        rw [List.length_erase_of_mem hseed]
        simp
      have := ih (growAux dist pts max_ro ((u :: us).erase (argmaxKey (usedRo pts) (u :: us))).length
          ((u :: us).erase (argmaxKey (usedRo pts) (u :: us)))
          [argmaxKey (usedRo pts) (u :: us)]
          (usedRo pts (argmaxKey (usedRo pts) (u :: us)))
          (latOf pts (argmaxKey (usedRo pts) (u :: us)),
            lonOf pts (argmaxKey (usedRo pts) (u :: us)))).unassigned
      omega

theorem buildClusters_heavy {K : Type*} [LinearOrder K] (dist : ℚ × ℚ → ℚ × ℚ → K)
    (pts : List RawPoint) (max_ro : ℚ) :
    ∀ (fuel : ℕ) (unassigned : List ℕ) (i : ℕ), unassigned.length ≤ fuel →
      i ∈ unassigned → max_ro < usedRo pts i →
      ∃ c ∈ buildClusters dist pts max_ro fuel unassigned,
        c.members = [i] ∧ c.total_ro = usedRo pts i := by
  intro fuel
  induction fuel with
  | zero =>
    intro unassigned i h hi _
    rw [Nat.le_zero] at h
    rw [List.eq_nil_of_length_eq_zero h] at hi
    simp at hi
  | succ n ih =>
    intro unassigned i h hi hM
    cases unassigned with
    | nil => simp at hi
    | cons u us =>
      have hseed := argmaxKey_mem (usedRo pts) u us
      have hge : usedRo pts i ≤ usedRo pts (argmaxKey (usedRo pts) (u :: us)) :=
        argmaxKey_ge (usedRo pts) u us i hi
      have hnot : ¬ usedRo pts (argmaxKey (usedRo pts) (u :: us)) < max_ro :=
        not_lt.mpr (le_of_lt (lt_of_lt_of_le hM hge))
      simp only [buildClusters]
      rw [growAux_of_not_lt _ _ _ _ _ _ _ _ hnot]
      by_cases hsi : argmaxKey (usedRo pts) (u :: us) = i
      · refine ⟨_, List.mem_cons_self _ _, ?_, ?_⟩
        · simp [hsi]
        · simp [hsi]
      · have hne : i ≠ argmaxKey (usedRo pts) (u :: us) := fun hh => hsi hh.symm
        have hi' : i ∈ (u :: us).erase (argmaxKey (usedRo pts) (u :: us)) :=
          (List.mem_erase_of_ne hne).mpr hi
        have hlen : ((u :: us).erase (argmaxKey (usedRo pts) (u :: us))).length ≤ n := by
          rw [List.length_erase_of_mem hseed]
          simpa using Nat.le_of_succ_le_succ (by simpa using h)
        rcases ih _ i hlen hi' hM with ⟨c, hc, hc1, hc2⟩
        exact ⟨c, List.mem_cons_of_mem _ hc, hc1, hc2⟩

theorem buildClusters_soft_cap {K : Type*} [LinearOrder K] (dist : ℚ × ℚ → ℚ × ℚ → K)
    (pts : List RawPoint) (max_ro : ℚ) :
    ∀ (fuel : ℕ) (unassigned : List ℕ) (c : Cluster),
      c ∈ buildClusters dist pts max_ro fuel unassigned →
      ∀ l, c.members.getLast? = some l → 2 ≤ c.members.length →
        c.total_ro - usedRo pts l < max_ro := by
  intro fuel
  induction fuel with
  | zero => intro unassigned c hc; simp [buildClusters] at hc
  | succ n ih =>
    intro unassigned c hc
    cases unassigned with
    | nil => simp [buildClusters] at hc
    | cons u us =>
      simp only [buildClusters] at hc
      rcases List.mem_cons.mp hc with rfl | hc'
      · intro l hl hlen
        refine growAux_soft_cap dist pts max_ro _ _ _ _ _ ?_ l hl hlen
        intro l' hl' hlen'
        simp at hlen'
      · exact ih _ _ hc'

theorem buildClusters_sum {K : Type*} [LinearOrder K] (dist : ℚ × ℚ → ℚ × ℚ → K)
    (pts : List RawPoint) (max_ro : ℚ) (fuel : ℕ) (unassigned : List ℕ)
    (h : unassigned.length ≤ fuel) :
    ((buildClusters dist pts max_ro fuel unassigned).map Cluster.total_ro).sum =
      (unassigned.map (usedRo pts)).sum := by
  have hperm := buildClusters_join_perm dist pts max_ro fuel unassigned h
  have hmap : (buildClusters dist pts max_ro fuel unassigned).map Cluster.total_ro =
      (buildClusters dist pts max_ro fuel unassigned).map
        (fun c => (c.members.map (usedRo pts)).sum) :=
    List.map_congr_left fun c hc => buildClusters_total_eq dist pts max_ro fuel unassigned c hc
  rw [hmap]
  rw [show (buildClusters dist pts max_ro fuel unassigned).map
      (fun c => (c.members.map (usedRo pts)).sum) =
      ((((buildClusters dist pts max_ro fuel unassigned).map Cluster.members).map
        (List.map (usedRo pts))).map List.sum) by simp [List.map_map]]
  rw [← List.sum_flatten, ← List.map_flatten]
  exact (hperm.map (usedRo pts)).sum_eq

theorem range_map_usedRo (pts : List RawPoint) :
    (List.range pts.length).map (usedRo pts) =
      pts.map (fun p => coerce_ro p.projected_ro) := by
  apply List.ext_get
  · simp
  · intro j h1 h2
    simp only [List.get_eq_getElem, List.getElem_map, List.getElem_range]
    unfold usedRo
    congr 2
    rw [List.getD_eq_getElem?_getD]
    rw [List.getElem?_eq_getElem (by simpa using h2)]
    rfl

/-- Claim C2: for every input and every cap, the sum of `total_ro` over the returned
clusters equals the sum of the coerced `projected_ro` weights of all input
rows: clustering neither drops nor duplicates mass. -/
theorem claim_C2_weight_conservation (pts : List RawPoint) (max_ro : ℚ) :
    ((greedy_spatial_clustering pts max_ro).map Cluster.total_ro).sum =
      (pts.map (fun p => coerce_ro p.projected_ro)).sum := by
  rw [← range_map_usedRo]
  exact buildClusters_sum havDist pts max_ro pts.length (List.range pts.length) (by simp)

/-- Claim C3: the member index lists of the returned clusters form a partition of
the input rows: their concatenation is a permutation of all row indices, and
distinct clusters are pairwise disjoint. -/
theorem claim_C3_partition (pts : List RawPoint) (max_ro : ℚ) :
    ((greedy_spatial_clustering pts max_ro).map Cluster.members).flatten ~
        List.range pts.length ∧
      ((greedy_spatial_clustering pts max_ro).map Cluster.members).Pairwise List.Disjoint := by
  have hperm : ((greedy_spatial_clustering pts max_ro).map Cluster.members).flatten ~
      List.range pts.length :=
    buildClusters_join_perm havDist pts max_ro pts.length (List.range pts.length) (by simp)
  refine ⟨hperm, ?_⟩
  have hnd : (((greedy_spatial_clustering pts max_ro).map Cluster.members).flatten).Nodup :=
    hperm.nodup_iff.mpr (List.nodup_range _)
  exact (List.nodup_flatten.mp hnd).2

/-- Claim C10: the clustering engine is a total function (embedded by structurally
terminating recursion) and returns at most one cluster per input row. -/
theorem claim_C10_terminates (pts : List RawPoint) (max_ro : ℚ) :
    (greedy_spatial_clustering pts max_ro).length ≤ pts.length := by
  have := buildClusters_length_le havDist pts max_ro pts.length (List.range pts.length)
  simpa using this

/-- Claim C4: a row whose coerced weight strictly exceeds the cap always ends up as
the sole member of its own cluster, whose total is its weight and exceeds the
cap, regardless of the other input rows. -/
theorem claim_C4_heavy_singleton (pts : List RawPoint) (M : ℚ) (i : ℕ)
    (hi : i < pts.length) (hM : M < usedRo pts i) :
    ∃ c ∈ greedy_spatial_clustering pts M,
      c.members = [i] ∧ c.total_ro = usedRo pts i ∧ M < c.total_ro := by
  rcases buildClusters_heavy havDist pts M pts.length (List.range pts.length) i (by simp)
    (List.mem_range.mpr hi) hM with ⟨c, hc, h1, h2⟩
  exact ⟨c, hc, h1, h2, by rw [h2]; exact hM⟩

theorem claim_C4_witness :
    (0 < pts1W.length ∧ (5 : ℚ) < usedRo pts1W 0) ∧
      ∃ c ∈ greedy_spatial_clustering pts1W 5,
        c.members = [0] ∧ c.total_ro = usedRo pts1W 0 ∧ (5 : ℚ) < c.total_ro :=
  ⟨⟨by norm_num [pts1W], by norm_num [usedRo, coerce_ro, pts1W]⟩,
    claim_C4_heavy_singleton pts1W 5 0 (by norm_num [pts1W])
      (by norm_num [usedRo, coerce_ro, pts1W])⟩

/-- Claim C5: the soft cap: in any returned cluster with at least two members, the
total minus the weight of the last-added member is strictly below the cap
(the running total was below the cap when that member was admitted). -/
theorem claim_C5_soft_cap (pts : List RawPoint) (M : ℚ) (c : Cluster)
    (hc : c ∈ greedy_spatial_clustering pts M) (l : ℕ)
    (hl : c.members.getLast? = some l) (hlen : 2 ≤ c.members.length) :
    c.total_ro - usedRo pts l < M :=
  buildClusters_soft_cap havDist pts M pts.length (List.range pts.length) c hc l hl hlen

theorem claim_C5_witness :
    (⟨[1, 0], 7, (0, 0)⟩ : Cluster) ∈ greedy_spatial_clustering pts2W 10 ∧
      (7 : ℚ) - usedRo pts2W 0 < 10 := by
  have heval : greedy_spatial_clustering pts2W 10 = [⟨[1, 0], 7, (0, 0)⟩] := by
    norm_num [greedy_spatial_clustering, greedyClustering, buildClusters, growAux, argmaxKey,
      argminKey, usedRo, coerce_ro, latOf, lonOf, centroidOf, pts2W, List.range_succ]
  have hmem : (⟨[1, 0], 7, (0, 0)⟩ : Cluster) ∈ greedy_spatial_clustering pts2W 10 := by
    rw [heval]
    exact List.mem_singleton.mpr rfl
  exact ⟨hmem, claim_C5_soft_cap pts2W 10 _ hmem 0 rfl (by norm_num)⟩

/-- Claim C6: the distance function is symmetric in its two points, and the
distance from a point to itself is zero. -/
theorem claim_C6_symm_self (lat1 lon1 lat2 lon2 : ℝ) :
    haversine_km lat1 lon1 lat2 lon2 = haversine_km lat2 lon2 lat1 lon1 ∧
      haversine_km lat1 lon1 lat1 lon1 = 0 := by
  constructor
  · simp only [haversine_km, toRadians]
    have h1 : ∀ x y : ℝ, Real.sin ((x - y) * Real.pi / 180 / 2) ^ 2 =
        Real.sin ((y - x) * Real.pi / 180 / 2) ^ 2 := by
      intro x y
      rw [show (x - y) * Real.pi / 180 / 2 = -((y - x) * Real.pi / 180 / 2) by ring,
        Real.sin_neg, neg_sq]
    rw [h1 lat2 lat1, h1 lon2 lon1, mul_comm (Real.cos (lat1 * Real.pi / 180))]
  · simp only [haversine_km, toRadians]
    rw [show (lat1 - lat1 : ℝ) * Real.pi / 180 / 2 = 0 by ring,
      show (lon1 - lon1 : ℝ) * Real.pi / 180 / 2 = 0 by ring, Real.sin_zero]
    rw [show (0 : ℝ) ^ 2 + Real.cos (lat1 * Real.pi / 180) *
        Real.cos (lat1 * Real.pi / 180) * 0 ^ 2 = 0 by ring]
    rw [Real.sqrt_zero, show (1 : ℝ) - 0 = 1 by ring, Real.sqrt_one]
    rw [atan2, if_pos (show (0 : ℝ) < 1 by norm_num), zero_div, Real.arctan_zero]
    ring

/-- Claim C7: the centroid locator returns `none` exactly on an empty member table,
and otherwise returns the identifier and coordinates of a member whose
distance to the centroid is minimal among all members. -/
theorem claim_C7_centroid_locator (members : List RawPoint) (centroid : ℚ × ℚ) :
    (find_centroid_pincode members centroid = none ↔ members = []) ∧
      (members ≠ [] → ∃ m ∈ members,
        find_centroid_pincode members centroid = some (m.pincode, m.lat, m.lon) ∧
        ∀ m2 ∈ members,
          havDist centroid (m.lat, m.lon) ≤ havDist centroid (m2.lat, m2.lon)) := by
  cases members with
  | nil =>
    refine ⟨by simp [find_centroid_pincode], ?_⟩
    intro h
    exact absurd rfl h
  | cons m ms =>
    constructor
    · simp [find_centroid_pincode]
    · intro _
      have hrange : List.range (m :: ms).length = 0 :: (List.range ms.length).map Nat.succ := by
        simp [List.range_succ_eq_map]
      set k : ℕ → ℝ := fun i => havDist centroid (latOf (m :: ms) i, lonOf (m :: ms) i) with hk
      have hidxmem : argminKey k (List.range (m :: ms).length) ∈
          List.range (m :: ms).length := by
        rw [hrange]
        exact argminKey_mem k 0 ((List.range ms.length).map Nat.succ)
      have hidxlt : argminKey k (List.range (m :: ms).length) < (m :: ms).length :=
        List.mem_range.mp hidxmem
      have hgetD : ∀ (j : ℕ) (hj : j < (m :: ms).length),
          (m :: ms).getD j default = (m :: ms).get ⟨j, hj⟩ := by
        intro j hj
        rw [List.getD_eq_getElem?_getD, List.getElem?_eq_getElem hj]
        rfl
      refine ⟨(m :: ms).getD (argminKey k (List.range (m :: ms).length)) default, ?_, ?_, ?_⟩
      · rw [hgetD _ hidxlt]
        exact List.get_mem _ _ _
      · rfl
      · intro m2 hm2
        rcases List.mem_iff_get.mp hm2 with ⟨⟨j, hjlt⟩, hget⟩
        have hjmem : j ∈ List.range (m :: ms).length := List.mem_range.mpr hjlt
        have hle := argminKey_le k 0 ((List.range ms.length).map Nat.succ)
          j (by rw [← hrange]; exact hjmem)
        rw [← hrange] at hle
        have e1 : k (argminKey k (List.range (m :: ms).length)) =
            havDist centroid
              (((m :: ms).getD (argminKey k (List.range (m :: ms).length)) default).lat,
                ((m :: ms).getD (argminKey k (List.range (m :: ms).length)) default).lon) := rfl
        have e2 : k j = havDist centroid (m2.lat, m2.lon) := by
          rw [hk]
          simp only [latOf, lonOf]
          rw [hgetD _ hjlt, hget]
        rw [e1, e2] at hle
        exact hle

/-- Claim C8: with an empty facility table the nearest-facility distance is the
infinite sentinel for every query point, and consequently every cluster is
classified as suggested whatever the threshold. -/
theorem claim_C8_empty_facilities (lat lon : ℝ) :
    nearest_distance_to_workshops lat lon [] = ⊤ ∧
      ∀ min_dist_km : ℝ, suggested (nearest_distance_to_workshops lat lon []) min_dist_km :=
  ⟨rfl, fun _ => le_top⟩

/-- Claim C9 counterexample: a syntactically valid negative weight is passed through
the numeric coercion unchanged, so the engine can see a negative weight. -/
theorem claim_C9_counterexample : ¬ (0 : ℚ) ≤ usedRo ptsNeg 0 := by
  norm_num [usedRo, coerce_ro, ptsNeg]

/-- Claim C9 amended: the coercion maps a missing or invalid weight to `0`, and
when every numeric weight present in the input is nonnegative, every weight
the engine uses is nonnegative. -/
theorem claim_C9_amended :
    coerce_ro none = 0 ∧
      ∀ (pts : List RawPoint) (i : ℕ),
        (∀ p ∈ pts, ∀ x ∈ p.projected_ro, (0 : ℚ) ≤ x) → 0 ≤ usedRo pts i := by
  refine ⟨rfl, ?_⟩
  intro pts i h
  unfold usedRo coerce_ro
  by_cases hi : i < pts.length
  · have hmem : pts.getD i default ∈ pts := by
      rw [List.getD_eq_getElem?_getD, List.getElem?_eq_getElem hi]
      exact List.getElem_mem hi
    cases hp : (pts.getD i default).projected_ro with
    | none => simp
    | some x =>
      simp only [Option.getD_some]
      exact h _ hmem x (by rw [hp]; rfl)
  · rw [List.getD_eq_getElem?_getD, List.getElem?_eq_none (by omega)]
    exact le_refl _

theorem claim_C9_witness :
    (∀ p ∈ ptsPos, ∀ x ∈ p.projected_ro, (0 : ℚ) ≤ x) ∧ 0 ≤ usedRo ptsPos 0 := by
  have h : ∀ p ∈ ptsPos, ∀ x ∈ p.projected_ro, (0 : ℚ) ≤ x := by
    intro p hp x hx
    simp only [ptsPos, List.mem_singleton] at hp
    subst hp
    simp only [Option.mem_def, Option.some.injEq] at hx
    subst hx
    norm_num
  exact ⟨h, claim_C9_amended.2 ptsPos 0 h⟩

/-- Run of the clustering engine on the scenario input, generic in any
distance function under which P2 is strictly nearer than P1 to the seed
centroid (20, 80): the seed P3 has running total 5000 < 6000, so the nearest
remaining point P2 is added with no fit check, giving cluster {P3, P2} with
total 8000; P1 is left as a singleton cluster with total 4000. -/
theorem scenario3_eval {K : Type*} [LinearOrder K] (dist : ℚ × ℚ → ℚ × ℚ → K)
    (hd : dist ((20 : ℚ), (80 : ℚ)) ((1291 / 100 : ℚ), (7761 / 100 : ℚ)) <
      dist ((20 : ℚ), (80 : ℚ)) ((129 / 10 : ℚ), (388 / 5 : ℚ))) :
    greedyClustering dist pts3 6000 =
      [⟨[2, 1], 8000, (13873 / 800, 63283 / 800)⟩, ⟨[0], 4000, (12.90, 77.60)⟩] := by
  norm_num [greedyClustering, buildClusters, growAux, argmaxKey,
    argminKey, usedRo, coerce_ro, latOf, lonOf, centroidOf, pts3,
    List.range_succ]
  rw [if_pos hd]
  norm_num [growAux, argmaxKey, argminKey, usedRo, coerce_ro, latOf, lonOf, centroidOf, pts3]

theorem greedy_pts3_eval : greedy_spatial_clustering pts3 6000 =
    [⟨[2, 1], 8000, (13873 / 800, 63283 / 800)⟩, ⟨[0], 4000, (12.90, 77.60)⟩] :=
  scenario3_eval havDist hav_concrete_lt

/-- Claim C1 counterexample: on the scenario input the engine does not return the
claimed totals 5000 and 7000; the first cluster absorbs P2 (totals are 8000
and 4000), because the inner loop has no fit check before adding. -/
theorem claim_C1_counterexample :
    ¬ (greedy_spatial_clustering pts3 6000).map Cluster.total_ro = [5000, 7000] := by
  rw [greedy_pts3_eval]
  simp

/-- Claim C1 amended: on the scenario input the engine returns cluster A = {P3, P2}
(P3 seeded as highest weight, P2 added as the nearest remaining point since
the running total 5000 is below 6000 and admission is not fit-checked) with
total 8000, then cluster B = {P1} with total 4000. -/
theorem claim_C1_amended :
    greedy_spatial_clustering pts3 6000 =
      [⟨[2, 1], 8000, (13873 / 800, 63283 / 800)⟩, ⟨[0], 4000, (12.90, 77.60)⟩] :=
  greedy_pts3_eval

theorem claim_C7_witness :
    mem1W ≠ [] ∧ ∃ m ∈ mem1W,
      find_centroid_pincode mem1W (0, 0) = some (m.pincode, m.lat, m.lon) ∧
      ∀ m2 ∈ mem1W, havDist (0, 0) (m.lat, m.lon) ≤ havDist (0, 0) (m2.lat, m2.lon) :=
  ⟨by simp [mem1W], (claim_C7_centroid_locator mem1W (0, 0)).2 (by simp [mem1W])⟩
